import Mathlib

/-!
A verification development for `src/xkcd/downloader.py`, a script that
iterates over xkcd comic numbers starting at 1, fetches JSON metadata for
each, and downloads each comic image into a per-year directory, stopping
once the date of the last processed comic reaches the date of the most
recent comic (obtained by one upfront lookup).

The Python script is shallowly embedded below.  Network I/O is modelled by
an `Oracle` describing what every HTTP GET would return; the filesystem is
an explicit `FS` state (directories, files with byte contents, and the set
of paths at which opening a file for writing would raise).  Each embedded
function returns, besides its result, the list of log entries it emits and
the list of HTTP requests it issues, so that claims about logging and about
which requests are (not) issued can be stated.  An uncaught Python
exception is modelled by an explicit `raised` outcome.
-/

namespace Xkcd

/-- The JSON metadata record of one comic, as used by the script
(`num`, `year`, `month`, `day`, `safe_title`, `img`).  The `img` field may
be absent (`none`); the script treats records whose `img` is missing or
empty as non-comic entries.  The other fields are modelled as always
present since the script unconditionally accesses them. -/
structure ComicData where
  num : Nat
  year : String
  month : String
  day : String
  safe_title : String
  img : Option String
deriving DecidableEq, Repr

/-- A calendar date, as built by `datetime(year=..., month=..., day=...)`.
Range validation of `datetime` (e.g. month at most 12) is elided: no claim
involves an out-of-range date. -/
structure Date where
  year : Int
  month : Int
  day : Int
deriving DecidableEq, Repr

/-- Python `datetime` comparison `a < b`: lexicographic on
(year, month, day). -/
def Date.lt (a b : Date) : Bool :=
  if a.year < b.year then true
  else if a.year = b.year then
    if a.month < b.month then true
    else if a.month = b.month then decide (a.day < b.day)
    else false
  else false

/-- The numeric value of a decimal digit character, `none` otherwise. -/
def charDigit (c : Char) : Option Nat :=
  if '0' ≤ c ∧ c ≤ '9' then some (c.toNat - '0'.toNat) else none

/-- Read a non-empty all-digit character list as a natural number. -/
def digitsToNat (l : List Char) : Option Nat :=
  l.foldl
    (fun acc c =>
      match acc, charDigit c with
      | some a, some d => some (a * 10 + d)
      | _, _ => none)
    (if l.isEmpty then none else some 0)

/-- Python `int(s)` on a string: an optional sign followed by digits;
`none` models the `ValueError` raised otherwise.  (Python's tolerance of
surrounding whitespace and of underscore separators is elided: no claim
involves such a string.) -/
def strToInt (s : String) : Option Int :=
  match s.data with
  | '-' :: rest => (digitsToNat rest).map (fun n => -(n : Int))
  | '+' :: rest => (digitsToNat rest).map (fun n => (n : Int))
  | l => (digitsToNat l).map (fun n => (n : Int))

/-- Parse the date fields of a record, as `datetime(year=int(c["year"]),
month=int(c["month"]), day=int(c["day"]))` does; `none` models the
`ValueError` raised when a field does not parse as an integer. -/
def dateOfComic (c : ComicData) : Option Date :=
  match strToInt c.year, strToInt c.month, strToInt c.day with
  | some y, some m, some d => some ⟨y, m, d⟩
  | _, _, _ => none

/-- Python `str.zfill(width)`: left-pad with `'0'` to `width` characters,
inserting the zeros after a leading sign if present. -/
def zfill (s : String) (width : Nat) : String :=
  if width ≤ s.length then s
  else
    let pad := List.replicate (width - s.length) '0'
    match s.data with
    | [] => String.mk pad
    | c :: rest =>
      if c = '+' ∨ c = '-' then String.mk (c :: (pad ++ rest))
      else String.mk (pad ++ (c :: rest))

/-- The characters removed from titles by
`re.sub(r"/|\\|\:|\*|\?|\"|<|>|\|", "", title)`. -/
def isBadChar (c : Char) : Bool :=
  c == '/' || c == '\\' || c == ':' || c == '*' || c == '?' ||
  c == '"' || c == '<' || c == '>' || c == '|'

/-- Embedding of `re.sub(r"/|\\|\:|\*|\?|\"|<|>|\|", "", title)`: delete every
occurrence of each of the nine listed characters. -/
def sanitize (title : String) : String :=
  String.mk (title.data.filter (fun c => !isBadChar c))

/-- Python `str.split(".")` on a list of characters: split on every
occurrence of `'.'`, keeping empty segments, with `[[]]` for the empty
string. -/
def splitDot : List Char → List (List Char)
  | [] => [[]]
  | c :: cs =>
    match splitDot cs with
    | [] => [[]]
    | seg :: segs =>
      if c = '.' then [] :: seg :: segs else (c :: seg) :: segs

/-- Embedding of `img_url.split(".")[-1]`: the last segment of the URL split on dots,
i.e. the part after the last dot (the whole URL when it has no dot). -/
def extension (url : String) : String :=
  String.mk ((splitDot url.data).getLastD [])

/-- The extension allow-list `["png", "jpg", "jpeg", "gif"]` of
`download_comic`. -/
def allowedExtensions : List String := ["png", "jpg", "jpeg", "gif"]

/-- The output directory `comics/{year}` for a record (the constant
`current_dir` leading path of the script is elided, all paths being relative to
it). -/
def dirOf (c : ComicData) : String := "comics/" ++ c.year

/-- The output filename `({year}-{month}-{day}) {safe_title}.{extension}`
built by `download_comic`, with month and day zero-padded to two digits,
the sanitized title, and the extension taken from the image URL. -/
def comicFilename (c : ComicData) (img_url : String) : String :=
  "(" ++ c.year ++ "-" ++ zfill c.month 2 ++ "-" ++ zfill c.day 2 ++ ") "
    ++ sanitize c.safe_title ++ "." ++ extension img_url

/-- The full output path `comics/{year}/({year}-{month}-{day})
{safe_title}.{extension}` of a record's image. -/
def outputPathOf (c : ComicData) (img_url : String) : String :=
  dirOf c ++ "/" ++ comicFilename c img_url

/-- The filesystem state: the set of existing directories, the files with
their byte contents, and the set of paths at which `open(path, "wb")`
would raise (e.g. for lack of permission). -/
structure FS where
  dirs : List String
  files : List (String × List Nat)
  writeFails : List String
deriving DecidableEq, Repr

/-- Embedding of `os.path.exists(path)` restricted to files (no claim involves a
directory at a file path). -/
def FS.fileExists (fs : FS) (path : String) : Bool :=
  fs.files.any (fun p => p.1 == path)

/-- One log entry emitted through the script's `zlog` logger; each
constructor records the identifying context the corresponding call site
attaches. -/
inductive LogEntry where
  /-- Entry of a `get_comic_data` failure: error with `status_code` and
  `comic_number`, message "Couldn't get data". -/
  | errNoData (status : Nat) (comicNumber : Nat)
  /-- Entry of a `get_most_recent_comic_date_and_number` failure: error with
  `status_code`, message "Couldn't get data for most recent comic". -/
  | errNoDataLatest (status : Nat)
  /-- Entry of a `download_comic` disallowed extension: warning with the comic number
  and the unexpected extension, message "Unexpected extension type". -/
  | warnBadExtension (num : Nat) (ext : String)
  /-- Entry of `main` skipping a record with no usable metadata: warning with the
  full (possibly absent) record, message "Skipping non-comic comic...". -/
  | warnSkipNonComic (data : Option ComicData)
  /-- Entry of a `download_comic` image fetch failure: error with the full comic
  record, message "Couldn't save image.". -/
  | errSaveImage (data : ComicData)
  /-- Entry of the `main` info line with the latest comic number and date. -/
  | infoLatest (num : Nat) (date : Date)
deriving DecidableEq, Repr

/-- One HTTP request issued by the script. -/
inductive Req where
  /-- Request `GET http://xkcd.com/(n)/info.0.json`. -/
  | metadata (n : Nat)
  /-- Request `GET http://xkcd.com/info.0.json`. -/
  | latest
  /-- Request `GET (url)` for an image. -/
  | image (url : String)
deriving DecidableEq, Repr

/-- What one HTTP GET does: either the `session.get` call itself raises
(`exn`), or it yields a response with a status code whose body is then
read and parsed; `Except.error ()` models an exception raised while
reading or parsing the body, `Except.ok` the parsed value. -/
inductive GetOutcome (α : Type) where
  | exn : GetOutcome α
  | ok (status : Nat) (body : Except Unit α) : GetOutcome α
deriving Repr

/-- The network, as an oracle: what each of the three kinds of GET the
script can issue would return.  `Option ComicData` is the parsed JSON of a
metadata response (`none` models a falsy value such as `null`); the image
body is raw bytes. -/
structure Oracle where
  meta : Nat → GetOutcome (Option ComicData)
  latest : GetOutcome ComicData
  image : String → GetOutcome (List Nat)

/-- The outcome of calling an embedded function: a normal return, or an
uncaught Python exception propagating to the caller. -/
inductive FnResult (α : Type) where
  | ok (v : α)
  | raised
deriving DecidableEq, Repr

/-- A function's return value together with the log entries it emitted and
the HTTP requests it issued, in order. -/
structure FetchResult (α : Type) where
  result : FnResult α
  logs : List LogEntry
  reqs : List Req
deriving DecidableEq, Repr

/-- Embedding of `get_comic_data(session, comic_number)`: GET the metadata URL, then
parse the body as JSON inside a `try`.  A body read/parse failure is
logged (status code and comic number) and turned into `None`; note the
`session.get` call stands before the `try`, so an exception it raises
propagates unlogged. -/
def get_comic_data (o : Oracle) (comic_number : Nat) :
    FetchResult (Option ComicData) :=
  match o.meta comic_number with
  | .exn => ⟨.raised, [], [.metadata comic_number]⟩
  | .ok status body =>
    match body with
    | .error _ =>
      ⟨.ok none, [.errNoData status comic_number], [.metadata comic_number]⟩
    | .ok data => ⟨.ok data, [], [.metadata comic_number]⟩

/-- Embedding of `get_most_recent_comic_date_and_number(session)`: GET the latest-comic
URL, parse the body inside a `try`; a body read/parse failure is logged
(status code) and re-raised; as in `get_comic_data`, an exception from
`session.get` itself propagates unlogged.  On success the record's date is
built with `datetime(int(year), int(month), int(day))` — which raises past
the `try` if a field does not parse — and returned with its number. -/
def get_most_recent_comic_date_and_number (o : Oracle) :
    FetchResult (Date × Nat) :=
  match o.latest with
  | .exn => ⟨.raised, [], [.latest]⟩
  | .ok status body =>
    match body with
    | .error _ => ⟨.raised, [.errNoDataLatest status], [.latest]⟩
    | .ok c =>
      match dateOfComic c with
      | none => ⟨.raised, [], [.latest]⟩
      | some d => ⟨.ok (d, c.num), [], [.latest]⟩

/-- Embedding of `output_dir(comic_data)`: create `comics/(year)` if it does not exist
and return it.  Returns the updated filesystem and the directory path. -/
def output_dir (fs : FS) (c : ComicData) : FS × String :=
  if fs.dirs.contains (dirOf c) then (fs, dirOf c)
  else ({ fs with dirs := dirOf c :: fs.dirs }, dirOf c)

/-- The outcome of `download_comic`: the filesystem afterwards, the logs
and requests, and whether an uncaught exception propagated out of it. -/
structure DownloadResult where
  fs : FS
  logs : List LogEntry
  reqs : List Req
  raised : Bool
deriving DecidableEq, Repr

/-- Embedding of `download_comic(session, comic_data)`.  In source order: build the
zero-padded date parts and sanitized title; read the `img` URL; create the
output directory (this happens unconditionally, before any check); take
the extension after the URL's last dot; if the extension is not in the
allow-list, warn and return; if the file already exists, return without
touching the network or the file; otherwise GET the image inside a `try`
(a failure there is logged with the full record and swallowed), then write
the bytes — the write stands after the `except` block, so a failure
opening the output file raises out of the function.  A record with no
`img` field raises (`None.split`) after the directory was created. -/
def download_comic (o : Oracle) (fs : FS) (c : ComicData) : DownloadResult :=
  match c.img with
  | none => ⟨(output_dir fs c).1, [], [], true⟩
  | some img_url =>
    let fs1 := (output_dir fs c).1
    let ext := extension img_url
    let output_path := outputPathOf c img_url
    if ¬ allowedExtensions.contains ext then
      ⟨fs1, [.warnBadExtension c.num ext], [], false⟩
    else if fs1.fileExists output_path then
      ⟨fs1, [], [], false⟩
    else
      match o.image img_url with
      | .exn => ⟨fs1, [.errSaveImage c], [.image img_url], false⟩
      | .ok _ body =>
        match body with
        | .error _ => ⟨fs1, [.errSaveImage c], [.image img_url], false⟩
        | .ok bytes =>
          if fs1.writeFails.contains output_path then
            ⟨fs1, [], [.image img_url], true⟩
          else
            ⟨{ fs1 with files := (output_path, bytes) :: fs1.files },
              [], [.image img_url], false⟩

/-- Python truthiness of `comic_data.get("img")`: present and non-empty. -/
def imgTruthy : Option String → Bool
  | none => false
  | some s => !s.isEmpty

/-- The state of the `while` loop in `main`: the date cursor, the comic
counter, the filesystem, and the accumulated logs and requests of the
run. -/
structure LoopState where
  comic_date : Date
  comic_number : Nat
  fs : FS
  logs : List LogEntry
  reqs : List Req
deriving DecidableEq, Repr

/-- The outcome of one iteration of the loop body: the next state, or a
state in which an uncaught exception escaped the body (terminating the
run). -/
inductive StepResult where
  | next (s : LoopState)
  | raised (s : LoopState)
deriving DecidableEq, Repr

/-- One iteration of the `while` body in `main` (entered with the loop
condition already checked): increment the counter, fetch metadata; if the
metadata is falsy or its `img` field is falsy, warn and continue without
touching the date cursor or the filesystem; otherwise run
`download_comic` and then set the date cursor to the record's date. -/
def loopStep (o : Oracle) (s : LoopState) : StepResult :=
  let n := s.comic_number + 1
  match get_comic_data o n with
  | ⟨.raised, lg, rq⟩ =>
    .raised { s with comic_number := n, logs := s.logs ++ lg,
                     reqs := s.reqs ++ rq }
  | ⟨.ok data, lg, rq⟩ =>
    let s1 : LoopState :=
      { s with comic_number := n, logs := s.logs ++ lg, reqs := s.reqs ++ rq }
    match data with
    | none => .next { s1 with logs := s1.logs ++ [.warnSkipNonComic none] }
    | some c =>
      if ¬ imgTruthy c.img then
        .next { s1 with logs := s1.logs ++ [.warnSkipNonComic (some c)] }
      else
        let d := download_comic o s1.fs c
        let s2 : LoopState :=
          { s1 with fs := d.fs, logs := s1.logs ++ d.logs,
                    reqs := s1.reqs ++ d.reqs }
        if d.raised then .raised s2
        else
          match dateOfComic c with
          | none => .raised s2
          | some dt => .next { s2 with comic_date := dt }

/-- The outcome of running the loop with a given amount of fuel (an upper
bound on the number of iterations, needed only to make the possibly
non-terminating `while` loop a total function). -/
inductive RunResult where
  | done (s : LoopState)
  | raised (s : LoopState)
  | outOfFuel (s : LoopState)
deriving DecidableEq, Repr

/-- The loop state carried by a run outcome. -/
def RunResult.state : RunResult → LoopState
  | .done s => s
  | .raised s => s
  | .outOfFuel s => s

/-- Whether the run exited the loop normally (condition became false). -/
def RunResult.isDone : RunResult → Bool
  | .done _ => true
  | _ => false

/-- Whether the run ended with an uncaught exception. -/
def RunResult.isRaised : RunResult → Bool
  | .raised _ => true
  | _ => false

/-- Whether the run used up its fuel with the loop condition still true. -/
def RunResult.isOutOfFuel : RunResult → Bool
  | .outOfFuel _ => true
  | _ => false

/-- Embedding of `while comic_date < most_recent_comic_date: ...`, with fuel. -/
def runLoop (o : Oracle) (latest : Date) : Nat → LoopState → RunResult
  | 0, s => if Date.lt s.comic_date latest then .outOfFuel s else .done s
  | f + 1, s =>
    if Date.lt s.comic_date latest then
      match loopStep o s with
      | .next t => runLoop o latest f t
      | .raised t => .raised t
    else .done s

/-- The initial date cursor `datetime(2000, 1, 1)` of `main`. -/
def initialDate : Date := ⟨2000, 1, 1⟩

/-- Embedding of `main()`: perform the latest-comic lookup (a failure there propagates,
aborting the run before any per-comic request), log the info line, then
run the loop from `comic_date = datetime(2000, 1, 1)`,
`comic_number = 0`. -/
def mainRun (o : Oracle) (fuel : Nat) (fs0 : FS) : RunResult :=
  match get_most_recent_comic_date_and_number o with
  | ⟨.raised, lg, rq⟩ =>
    .raised ⟨initialDate, 0, fs0, lg, rq⟩
  | ⟨.ok (d, num), lg, rq⟩ =>
    runLoop o d fuel
      ⟨initialDate, 0, fs0, lg ++ [.infoLatest num d], rq⟩

/-! ### Concrete instances used to exercise the embedding -/

/-- Whether one loop iteration ended in an uncaught exception. -/
def StepResult.isRaisedStep : StepResult → Bool
  | .raised _ => true
  | .next _ => false

/-- An empty filesystem. -/
def emptyFS : FS := ⟨[], [], []⟩

/-- The stub record of the spec's end-to-end example:
`{num:1, year:"2006", month:"1", day:"1", safe_title:"Test",
img:"http://x/test.png"}`. -/
def testRec : ComicData := ⟨1, "2006", "1", "1", "Test", some "http://x/test.png"⟩

/-- A filesystem on which `testRec`'s output file already exists. -/
def testRecFS : FS :=
  ⟨["comics/2006"], [("comics/2006/(2006-01-01) Test.png", [7, 8])], []⟩

/-- A network where every GET call raises. -/
def exnOracle : Oracle := ⟨fun _ => .exn, .exn, fun _ => .exn⟩

/-- A latest-comic record: number 1, date 2010-01-02. -/
def latestRec : ComicData := ⟨1, "2010", "1", "2", "L", some "http://x/l.png"⟩

/-- A network whose latest-comic lookup yields `latestRec` (number 1,
date 2010-01-02) but where every per-comic metadata body fails to
parse with status 404. -/
def noDataOracle : Oracle :=
  ⟨fun _ => .ok 404 (.error ()), .ok 200 (.ok latestRec), fun _ => .exn⟩

/-- A network whose latest-comic lookup fails while parsing the body
(status 500). -/
def badLatestOracle : Oracle := ⟨fun _ => .exn, .ok 500 (.error ()), fun _ => .exn⟩

/-- A record whose image extension `png` is allowed. -/
def wfailRec : ComicData := ⟨10, "2007", "3", "4", "T", some "http://x/a.png"⟩

/-- A filesystem on which opening `wfailRec`'s output file for writing
raises. -/
def wfailFS : FS := ⟨["comics/2007"], [], ["comics/2007/(2007-03-04) T.png"]⟩

/-- A network that serves `wfailRec` as every comic's metadata and serves
image bytes successfully. -/
def wfailOracle : Oracle :=
  ⟨fun _ => .ok 200 (.ok (some wfailRec)), .ok 200 (.ok wfailRec),
    fun _ => .ok 200 (.ok [9])⟩

/-- A network that serves `latestRec` both as the latest comic and as
every comic's metadata, with image bytes `[1, 2, 3]`. -/
def stopOracle : Oracle :=
  ⟨fun _ => .ok 200 (.ok (some latestRec)), .ok 200 (.ok latestRec),
    fun _ => .ok 200 (.ok [1, 2, 3])⟩

/-- A record with the disallowed image extension `tiff`. -/
def tiffRec : ComicData := ⟨44, "2008", "5", "6", "U", some "http://x/b.tiff"⟩

/-- A record whose `img` field is an empty string (falsy in Python). -/
def noImgRec : ComicData := ⟨45, "2008", "5", "7", "V", some ""⟩

/-- A network that serves `noImgRec` as every comic's metadata. -/
def noImgOracle : Oracle :=
  ⟨fun _ => .ok 200 (.ok (some noImgRec)), .ok 200 (.ok latestRec),
    fun _ => .exn⟩

/-! ### Helper lemmas -/

/-- Lemma: `output_dir` never touches the files. -/
lemma output_dir_files (fs : FS) (c : ComicData) :
    (output_dir fs c).1.files = fs.files := by
  unfold output_dir
  split <;> rfl

/-- Lemma: `output_dir` never touches the write-failure set. -/
lemma output_dir_writeFails (fs : FS) (c : ComicData) :
    (output_dir fs c).1.writeFails = fs.writeFails := by
  unfold output_dir
  split <;> rfl

/-- After `output_dir`, the output directory exists. -/
lemma output_dir_mem_dirs (fs : FS) (c : ComicData) :
    dirOf c ∈ (output_dir fs c).1.dirs := by
  unfold output_dir
  split
  · next h => exact List.mem_of_elem_eq_true h
  · exact List.mem_cons_self _ _

/-- Lemma: `download_comic` never touches the write-failure set. -/
lemma download_comic_writeFails (o : Oracle) (fs : FS) (c : ComicData) :
    (download_comic o fs c).fs.writeFails = fs.writeFails := by
  unfold download_comic
  cases c.img with
  | none => simp [output_dir_writeFails]
  | some u =>
    cases h : o.image u with
    | exn =>
      simp [h, apply_ite DownloadResult.fs, apply_ite FS.writeFails,
        output_dir_writeFails]
    | ok st body =>
      cases body with
      | error e =>
        simp [h, apply_ite DownloadResult.fs, apply_ite FS.writeFails,
          output_dir_writeFails]
      | ok bytes =>
        simp [h, apply_ite DownloadResult.fs, apply_ite FS.writeFails,
          output_dir_writeFails]

/-- File existence only depends on the files. -/
lemma fileExists_eq_of_files_eq {fs1 fs2 : FS} (h : fs1.files = fs2.files)
    (p : String) : fs1.fileExists p = fs2.fileExists p := by
  unfold FS.fileExists
  rw [h]

/-- When the output file already exists, `download_comic` leaves every
file as it is, issues no request, and returns normally. -/
lemma download_comic_existing (o : Oracle) (fs : FS) (c : ComicData)
    (u : String) (himg : c.img = some u)
    (hex : fs.fileExists (outputPathOf c u) = true) :
    (download_comic o fs c).fs.files = fs.files ∧
    (download_comic o fs c).reqs = [] ∧
    (download_comic o fs c).raised = false := by
  unfold download_comic
  rw [himg]
  have hf : (output_dir fs c).1.fileExists (outputPathOf c u) = true := by
    rw [fileExists_eq_of_files_eq (output_dir_files fs c)]
    exact hex
  by_cases hext : extension u ∈ allowedExtensions
  · simp [hext, hf, output_dir_files]
  · simp [hext, output_dir_files]

/-- Lemma: `splitDot` never returns the empty list. -/
lemma splitDot_ne_nil (l : List Char) : splitDot l ≠ [] := by
  cases l with
  | nil => simp [splitDot]
  | cons c cs =>
    unfold splitDot
    cases h : splitDot cs with
    | nil => simp
    | cons seg segs => by_cases hc : c = '.' <;> simp [hc]

/-- Splitting a dot-free string yields that one segment. -/
lemma splitDot_of_not_mem (l : List Char) (h : '.' ∉ l) : splitDot l = [l] := by
  induction l with
  | nil => rfl
  | cons c cs ih =>
    have hc : ¬ c = '.' := fun e => h (by simp [e])
    have hcs : '.' ∉ cs := fun m => h (List.mem_cons_of_mem c m)
    unfold splitDot
    rw [ih hcs]
    simp [hc]

/-- Splitting a string containing a dot yields at least two segments. -/
lemma splitDot_length_ge (l : List Char) (h : '.' ∈ l) :
    2 ≤ (splitDot l).length := by
  induction l with
  | nil => cases h
  | cons c cs ih =>
    unfold splitDot
    cases hs : splitDot cs with
    | nil => exact absurd hs (splitDot_ne_nil cs)
    | cons seg segs =>
      by_cases hc : c = '.'
      · simp [hc]
      · have h2 : '.' ∈ cs := by
          rcases List.mem_cons.mp h with h1 | h1
          · exact absurd h1.symm hc
          · exact h1
        have h3 := ih h2
        rw [hs] at h3
        simp only [List.length_cons] at h3 ⊢
        simp [hc]
        omega

/-- Lemma: `getLastD` of a non-empty list does not depend on the default. -/
lemma getLastD_irrel {α : Type} (l : List α) (hl : l ≠ []) (d1 d2 : α) :
    l.getLastD d1 = l.getLastD d2 := by
  cases l with
  | nil => exact absurd rfl hl
  | cons a t => rw [List.getLastD_cons, List.getLastD_cons]

/-- The last segment of a split is the part after the last dot. -/
lemma splitDot_getLastD_append (pre post : List Char) (h : '.' ∉ post)
    (d : List Char) : (splitDot (pre ++ '.' :: post)).getLastD d = post := by
  induction pre generalizing d with
  | nil =>
    simp only [List.nil_append]
    unfold splitDot
    rw [splitDot_of_not_mem post h]
    simp
  | cons c pre ih =>
    simp only [List.cons_append]
    unfold splitDot
    cases hs : splitDot (pre ++ '.' :: post) with
    | nil => exact absurd hs (splitDot_ne_nil _)
    | cons seg segs =>
      have hlen : 2 ≤ (seg :: segs).length := by
        rw [← hs]
        exact splitDot_length_ge _ (by simp)
      have hsegs : segs ≠ [] := by
        cases segs
        · simp at hlen
        · simp
      have ih1 := ih d
      rw [hs, List.getLastD_cons] at ih1
      change (if c = '.' then [] :: seg :: segs
        else (c :: seg) :: segs).getLastD d = post
      by_cases hc : c = '.'
      · rw [if_pos hc, List.getLastD_cons, List.getLastD_cons]
        exact ih1
      · rw [if_neg hc, List.getLastD_cons,
          getLastD_irrel segs hsegs (c :: seg) seg]
        exact ih1

/-- The extension of `pre ++ "." ++ post` with a dot-free `post` is
`post`. -/
lemma extension_after_last_dot (pre post : List Char) (h : '.' ∉ post) :
    extension (String.mk (pre ++ '.' :: post)) = String.mk post := by
  unfold extension
  rw [show (String.mk (pre ++ '.' :: post)).data = pre ++ '.' :: post from rfl]
  rw [splitDot_getLastD_append pre post h]

/-- The length of a string built from a character list. -/
lemma string_mk_length (l : List Char) : (String.mk l).length = l.length := rfl

/-- Lemma: `zfill` pads to exactly the requested width (or leaves a longer
string alone). -/
lemma zfill_length (s : String) (w : Nat) :
    (zfill s w).length = max w s.length := by
  unfold zfill
  split
  · next h => rw [Nat.max_eq_right h]
  · next h =>
    have hlen : s.length = s.data.length := rfl
    split
    · next hdata =>
      rw [string_mk_length, List.length_replicate]
      have h0 : s.length = 0 := by rw [hlen, hdata]; rfl
      omega
    · next c rest hdata =>
      have h1 : s.length = rest.length + 1 := by rw [hlen, hdata]; simp
      split
      · rw [string_mk_length]
        simp only [List.length_cons, List.length_append, List.length_replicate]
        omega
      · rw [string_mk_length]
        simp only [List.length_cons, List.length_append, List.length_replicate]
        omega

/-- Lemma: `download_comic` leaves the directories exactly as `output_dir` made
them. -/
lemma download_comic_dirs (o : Oracle) (fs : FS) (c : ComicData) :
    (download_comic o fs c).fs.dirs = (output_dir fs c).1.dirs := by
  unfold download_comic
  cases c.img with
  | none => simp
  | some u =>
    cases h : o.image u with
    | exn =>
      simp [h, apply_ite DownloadResult.fs, apply_ite FS.dirs]
    | ok st body =>
      cases body with
      | error e =>
        simp [h, apply_ite DownloadResult.fs, apply_ite FS.dirs]
      | ok bytes =>
        simp [h, apply_ite DownloadResult.fs, apply_ite FS.dirs]

/-- With a present image field and no failing write path,
`download_comic` never raises. -/
lemma download_comic_not_raised (o : Oracle) (fs : FS) (c : ComicData)
    (u : String) (himg : c.img = some u) (hwf : fs.writeFails = []) :
    (download_comic o fs c).raised = false := by
  unfold download_comic
  rw [himg]
  have hw : (output_dir fs c).1.writeFails = [] := by
    rw [output_dir_writeFails]
    exact hwf
  cases h : o.image u with
  | exn =>
    simp [h, apply_ite DownloadResult.raised]
  | ok st body =>
    cases body with
    | error e =>
      simp [h, apply_ite DownloadResult.raised]
    | ok bytes =>
      simp [h, hw, apply_ite DownloadResult.raised]

/-- Every loop iteration, converging or raising, increments the comic
counter by exactly one: iteration is strictly sequential. -/
lemma loopStep_increments (o : Oracle) (t t2 : LoopState)
    (h : loopStep o t = .next t2 ∨ loopStep o t = .raised t2) :
    t2.comic_number = t.comic_number + 1 := by
  unfold loopStep at h
  simp only at h
  rcases h with h | h <;>
    (repeat' split at h) <;>
    first
      | (injection h with h2; rw [← h2])
      | injection h

/-- One iteration from a state with no failing write paths, under a
network that never raises at `session.get` for metadata and whose
usable records all carry parseable dates, always converges to the next
state: counter incremented, no failing write paths, and the date cursor
set to the record's date whenever the iteration processed a usable
record. -/
lemma loopStep_progress (o : Oracle) (s : LoopState)
    (hwf : s.fs.writeFails = [])
    (hne : o.meta (s.comic_number + 1) ≠ .exn)
    (hparse : ∀ st c, o.meta (s.comic_number + 1) = .ok st (.ok (some c)) →
      imgTruthy c.img = true → (dateOfComic c).isSome = true) :
    ∃ t, loopStep o s = .next t ∧ t.comic_number = s.comic_number + 1 ∧
      t.fs.writeFails = [] ∧
      (∀ st c d, o.meta (s.comic_number + 1) = .ok st (.ok (some c)) →
        imgTruthy c.img = true → dateOfComic c = some d →
        t.comic_date = d) := by
  cases hm : o.meta (s.comic_number + 1) with
  | exn => exact absurd hm hne
  | ok st body =>
    cases body with
    | error e =>
      simp only [loopStep, get_comic_data, hm]
      refine ⟨_, rfl, rfl, hwf, ?_⟩
      intro st2 c d hmeta
      injection hmeta with h1 h2
      injection h2
    | ok data =>
      cases data with
      | none =>
        simp only [loopStep, get_comic_data, hm]
        refine ⟨_, rfl, rfl, hwf, ?_⟩
        intro st2 c d hmeta
        injection hmeta with h1 h2
        injection h2 with h3
        injection h3
      | some c =>
        by_cases himg : imgTruthy c.img = true
        · obtain ⟨u, hu⟩ : ∃ u, c.img = some u := by
            cases hci : c.img with
            | none => rw [hci] at himg; exact absurd himg (by decide)
            | some v => exact ⟨v, rfl⟩
          have hraised := download_comic_not_raised o s.fs c u hu hwf
          have hsome := hparse st c hm himg
          obtain ⟨dt, hdt⟩ := Option.isSome_iff_exists.mp hsome
          have hstep : loopStep o s = .next
              { comic_date := dt,
                comic_number := s.comic_number + 1,
                fs := (download_comic o s.fs c).fs,
                logs := s.logs ++ (download_comic o s.fs c).logs,
                reqs := s.reqs ++ Req.metadata (s.comic_number + 1)
                  :: (download_comic o s.fs c).reqs } := by
            simp [loopStep, get_comic_data, hm, himg, hraised, hdt]
          refine ⟨_, hstep, rfl, ?_, ?_⟩
          · rw [download_comic_writeFails]
            exact hwf
          · intro st2 c2 d hmeta himg2 hdc
            injection hmeta with h1 h2
            injection h2 with h3
            injection h3 with h4
            rw [← h4] at hdc
            rw [hdt] at hdc
            exact Option.some.inj hdc
        · have hstep : loopStep o s = .next
              { comic_date := s.comic_date,
                comic_number := s.comic_number + 1,
                fs := s.fs,
                logs := s.logs ++ [LogEntry.warnSkipNonComic (some c)],
                reqs := s.reqs ++ [Req.metadata (s.comic_number + 1)] } := by
            simp [loopStep, get_comic_data, hm, himg]
          refine ⟨_, hstep, rfl, hwf, ?_⟩
          intro st2 c2 d hmeta himg2 hdc
          injection hmeta with h1 h2
          injection h2 with h3
          injection h3 with h4
          rw [← h4] at himg2
          exact absurd himg2 himg

/-- A loop whose date cursor has reached the target exits immediately
with `done`, whatever the fuel. -/
lemma runLoop_done_of_not_lt (o : Oracle) (latest : Date) (fuel : Nat)
    (s : LoopState) (h : Date.lt s.comic_date latest = false) :
    runLoop o latest fuel s = .done s := by
  cases fuel <;> simp [runLoop, h]

/-- A loop run that exits normally does so exactly when its final date
cursor is no longer earlier than the target date. -/
lemma runLoop_done_not_lt (o : Oracle) (latest : Date) :
    ∀ (fuel : Nat) (s t : LoopState), runLoop o latest fuel s = .done t →
      Date.lt t.comic_date latest = false := by
  intro fuel
  induction fuel with
  | zero =>
    intro s t h
    unfold runLoop at h
    by_cases hc : Date.lt s.comic_date latest = true
    · rw [if_pos hc] at h
      injection h
    · rw [if_neg hc] at h
      injection h with h2
      rw [← h2]
      exact Bool.eq_false_iff.mpr hc
  | succ f ih =>
    intro s t h
    unfold runLoop at h
    by_cases hc : Date.lt s.comic_date latest = true
    · rw [if_pos hc] at h
      cases hs : loopStep o s with
      | next t2 =>
        rw [hs] at h
        exact ih t2 t h
      | raised t2 =>
        rw [hs] at h
        injection h
    · rw [if_neg hc] at h
      injection h with h2
      rw [← h2]
      exact Bool.eq_false_iff.mpr hc

/-- Under a network that never raises at metadata GETs, whose usable
records have parseable dates, and that yields at comic number `N` a
usable record dated at or after the target, the loop exits normally
within `N` iterations, ending at a comic number of at most `N`. -/
lemma runLoop_reaches_done (o : Oracle) (latest : Date) (N : Nat)
    (hnoexn : ∀ n, o.meta n ≠ .exn)
    (hparse : ∀ n st c, o.meta n = .ok st (.ok (some c)) →
      imgTruthy c.img = true → (dateOfComic c).isSome = true)
    (hstop : ∃ st c d, o.meta N = .ok st (.ok (some c)) ∧
      imgTruthy c.img = true ∧ dateOfComic c = some d ∧
      Date.lt d latest = false) :
    ∀ (fuel : Nat) (s : LoopState), s.comic_number < N →
      N ≤ s.comic_number + fuel → s.fs.writeFails = [] →
      (runLoop o latest fuel s).isDone = true ∧
      (runLoop o latest fuel s).state.comic_number ≤ N := by
  intro fuel
  induction fuel with
  | zero =>
    intro s hN hfuel hwf
    exfalso
    omega
  | succ f ih =>
    intro s hN hfuel hwf
    by_cases hc : Date.lt s.comic_date latest = true
    · obtain ⟨t, hstep, hnum, hwf2, hdate⟩ :=
        loopStep_progress o s hwf (hnoexn _)
          (fun st c h1 h2 => hparse _ st c h1 h2)
      have hrun : runLoop o latest (f + 1) s = runLoop o latest f t := by
        simp only [runLoop, hc, hstep, if_true]
      rw [hrun]
      by_cases hNt : s.comic_number + 1 = N
      · obtain ⟨st, c, d, hmeta, himg, hdc, hlt⟩ := hstop
        have ht : t.comic_date = d :=
          hdate st c d (by rw [hNt]; exact hmeta) himg hdc
        have hdone : runLoop o latest f t = .done t := by
          apply runLoop_done_of_not_lt
          rw [ht]
          exact hlt
        rw [hdone]
        refine ⟨rfl, ?_⟩
        show t.comic_number ≤ N
        omega
      · exact ih t (by omega) (by omega) hwf2
    · have hfalse : Date.lt s.comic_date latest = false :=
        Bool.eq_false_iff.mpr hc
      rw [runLoop_done_of_not_lt o latest (f + 1) s hfalse]
      refine ⟨rfl, ?_⟩
      show s.comic_number ≤ N
      omega

/-- A successful download writes the fetched bytes at the output path,
on top of the existing files. -/
lemma download_comic_writes (o : Oracle) (fs : FS) (c : ComicData)
    (u : String) (st : Nat) (bytes : List Nat) (himg : c.img = some u)
    (hext : extension u ∈ allowedExtensions)
    (hnex : fs.fileExists (outputPathOf c u) = false)
    (hwf : fs.writeFails = []) (him : o.image u = .ok st (.ok bytes)) :
    (download_comic o fs c).fs.files
      = (outputPathOf c u, bytes) :: fs.files ∧
    (download_comic o fs c).raised = false := by
  unfold download_comic
  rw [himg]
  have hnex1 : (output_dir fs c).1.fileExists (outputPathOf c u) = false := by
    rw [fileExists_eq_of_files_eq (output_dir_files fs c)]
    exact hnex
  have hw1 : (output_dir fs c).1.writeFails = [] := by
    rw [output_dir_writeFails]
    exact hwf
  simp [hext, hnex1, him, hw1, output_dir_files]

/-- A file just written is seen by the existence check. -/
lemma fileExists_of_files_cons (fs : FS) (p : String) (bytes : List Nat)
    (l : List (String × List Nat)) (h : fs.files = (p, bytes) :: l) :
    fs.fileExists p = true := by
  simp [FS.fileExists, h]

/-! ### Claims -/

/-- Claim C1: for every comic record processed by `download_comic`, if a
file already exists at the computed output path then no HTTP request for
the image is issued and the existing files are left byte-for-byte
unmodified; a second run over the same record never re-downloads or
rewrites the file. -/
theorem download_skips_existing_file (o : Oracle) (fs fs2 : FS)
    (c : ComicData) (u : String) (himg : c.img = some u)
    (hex : fs.fileExists (outputPathOf c u) = true) :
    (download_comic o fs c).fs.files = fs.files ∧
    (download_comic o fs c).reqs = [] ∧
    (download_comic o fs c).raised = false ∧
    (download_comic o (download_comic o fs c).fs c).reqs = [] ∧
    (download_comic o (download_comic o fs c).fs c).fs.files = fs.files ∧
    (extension u ∈ allowedExtensions →
      fs2.fileExists (outputPathOf c u) = false → fs2.writeFails = [] →
      ∀ st bytes, o.image u = .ok st (.ok bytes) →
        (download_comic o fs2 c).fs.files
          = (outputPathOf c u, bytes) :: fs2.files ∧
        (download_comic o (download_comic o fs2 c).fs c).reqs = [] ∧
        (download_comic o (download_comic o fs2 c).fs c).fs.files
          = (download_comic o fs2 c).fs.files) := by
  obtain ⟨h1, h2, h3⟩ := download_comic_existing o fs c u himg hex
  have hex2 : (download_comic o fs c).fs.fileExists (outputPathOf c u) = true := by
    rw [fileExists_eq_of_files_eq h1]
    exact hex
  obtain ⟨g1, g2, g3⟩ :=
    download_comic_existing o (download_comic o fs c).fs c u himg hex2
  refine ⟨h1, h2, h3, g2, h1 ▸ g1, ?_⟩
  intro hext hnex hwf st bytes him
  obtain ⟨w1, w2⟩ := download_comic_writes o fs2 c u st bytes himg hext hnex hwf him
  have hex3 : (download_comic o fs2 c).fs.fileExists (outputPathOf c u) = true :=
    fileExists_of_files_cons _ _ bytes fs2.files w1
  obtain ⟨e1, e2, e3⟩ :=
    download_comic_existing o (download_comic o fs2 c).fs c u himg hex3
  exact ⟨w1, e2, e1⟩

/-- Claim C1 witness: on a filesystem already holding
`comics/2006/(2006-01-01) Test.png`, running `download_comic` on the
matching record (twice) issues no request and changes no file. -/
theorem download_skips_existing_file_witness :
    (download_comic stopOracle testRecFS testRec).fs.files
      = testRecFS.files ∧
    (download_comic stopOracle testRecFS testRec).reqs = [] ∧
    (download_comic stopOracle emptyFS testRec).fs.files
      = (outputPathOf testRec "http://x/test.png", [1, 2, 3])
        :: emptyFS.files ∧
    (download_comic stopOracle
      (download_comic stopOracle emptyFS testRec).fs testRec).reqs = [] := by
  have h := download_skips_existing_file stopOracle testRecFS emptyFS testRec
    "http://x/test.png" rfl (by decide)
  have h2 := h.2.2.2.2.2 (by decide) (by decide) rfl 200 [1, 2, 3] rfl
  exact ⟨h.1, h.2.1, h2.1, h2.2.1⟩

/-- Claim C5: for every record whose image-URL extension is not in the
allow-list, `download_comic` writes no file, issues no request, and
records a warning naming the unexpected extension; it returns normally
(a deliberate skip, not an error). -/
theorem download_skips_disallowed_extension (o : Oracle) (fs : FS)
    (c : ComicData) (u : String) (himg : c.img = some u)
    (hext : extension u ∉ allowedExtensions) :
    (download_comic o fs c).fs.files = fs.files ∧
    (download_comic o fs c).reqs = [] ∧
    (download_comic o fs c).logs = [.warnBadExtension c.num (extension u)] ∧
    (download_comic o fs c).raised = false := by
  unfold download_comic
  rw [himg]
  simp [hext, output_dir_files]

/-- Claim C5 witness: a record with extension `tiff` is skipped with a
warning, no file write and no request. -/
theorem download_skips_disallowed_extension_witness :
    (download_comic exnOracle emptyFS tiffRec).fs.files = emptyFS.files ∧
    (download_comic exnOracle emptyFS tiffRec).reqs = [] ∧
    (download_comic exnOracle emptyFS tiffRec).logs
      = [.warnBadExtension tiffRec.num (extension "http://x/b.tiff")] ∧
    (download_comic exnOracle emptyFS tiffRec).raised = false :=
  download_skips_disallowed_extension exnOracle emptyFS tiffRec
    "http://x/b.tiff" rfl (by decide)

/-- Claim C10: a record that reaches `download_comic` with a disallowed
image extension still gets its year directory created when missing,
because `output_dir` runs before the extension check; the skipped comic
leaves a new directory and no file. -/
theorem download_disallowed_extension_creates_dir (o : Oracle) (fs : FS)
    (c : ComicData) (u : String) (himg : c.img = some u)
    (hext : extension u ∉ allowedExtensions)
    (hdir : dirOf c ∉ fs.dirs) :
    (download_comic o fs c).fs.dirs = dirOf c :: fs.dirs ∧
    (download_comic o fs c).fs.files = fs.files ∧
    (download_comic o fs c).reqs = [] := by
  unfold download_comic
  rw [himg]
  simp [hext, output_dir, hdir]

/-- Claim C10 witness: on an empty filesystem, the `tiff` record creates
`comics/2008` and nothing else. -/
theorem download_disallowed_extension_creates_dir_witness :
    (download_comic exnOracle emptyFS tiffRec).fs.dirs
      = dirOf tiffRec :: emptyFS.dirs ∧
    (download_comic exnOracle emptyFS tiffRec).fs.files = emptyFS.files ∧
    (download_comic exnOracle emptyFS tiffRec).reqs = [] :=
  download_disallowed_extension_creates_dir exnOracle emptyFS tiffRec
    "http://x/b.tiff" rfl (by decide) (by decide)

/-- Claim C6: when the fetched record is absent (falsy JSON) or lacks a
truthy image field, one loop iteration leaves the filesystem (so no
directory and no file) and the date cursor unchanged, and just advances
the counter. -/
theorem loop_skips_imageless_record (o : Oracle) (s : LoopState) (st : Nat)
    (h : o.meta (s.comic_number + 1) = .ok st (.ok none) ∨
      ∃ c, o.meta (s.comic_number + 1) = .ok st (.ok (some c)) ∧
        imgTruthy c.img = false) :
    ∃ t, loopStep o s = .next t ∧ t.fs = s.fs ∧
      t.comic_date = s.comic_date ∧ t.comic_number = s.comic_number + 1 := by
  rcases h with h | ⟨c, h, himg⟩
  · simp only [loopStep, get_comic_data, h]
    exact ⟨_, rfl, rfl, rfl, rfl⟩
  · simp only [loopStep, get_comic_data, h, himg]
    simp only [Bool.false_eq_true, not_false_eq_true, if_pos]
    exact ⟨_, rfl, rfl, rfl, rfl⟩

/-- Claim C6 witness: a record whose `img` is the empty string is skipped
without touching the filesystem or the date cursor. -/
theorem loop_skips_imageless_record_witness :
    ∃ t, loopStep noImgOracle ⟨initialDate, 3, emptyFS, [], []⟩ = .next t ∧
      t.fs = emptyFS ∧ t.comic_date = initialDate ∧ t.comic_number = 4 :=
  loop_skips_imageless_record noImgOracle ⟨initialDate, 3, emptyFS, [], []⟩
    200 (Or.inr ⟨noImgRec, rfl, rfl⟩)

/-- Claim C2 counterexample: the loop need not terminate and is not
bounded by the latest comic number.  With a latest comic numbered 1 and
dated 2010-01-02 but every per-comic metadata body failing to parse, the
date cursor never advances: after 3 iterations the loop is still running
and has issued metadata requests for comic numbers 2 and 3, outside
`[1, latest_number]`. -/
theorem loop_requests_beyond_latest_number :
    (get_most_recent_comic_date_and_number noDataOracle).result
      = .ok (⟨2010, 1, 2⟩, 1) ∧
    (mainRun noDataOracle 3 emptyFS).isOutOfFuel = true ∧
    Req.metadata 2 ∈ (mainRun noDataOracle 3 emptyFS).state.reqs ∧
    Req.metadata 3 ∈ (mainRun noDataOracle 3 emptyFS).state.reqs := by
  decide

/-- Claim C2 (amended): iteration is strictly sequential (each iteration
increments the comic counter by exactly one, so the single metadata
request of iteration k is for comic number k); the loop exits normally
exactly when the date cursor is no longer earlier than the latest
comic's date; and it does terminate — within comic number `N`, exiting
at a comic number of at most `N` — provided the network never raises at
a metadata GET, usable records carry parseable dates, and comic number
`N` yields a usable record dated at or after the latest comic's date.
Without such a record the loop can run forever and issue metadata
requests beyond the latest comic number (see the counterexample). -/
theorem loop_stops_at_latest_date (o : Oracle) (latest : Date)
    (N fuel : Nat) (s : LoopState)
    (hN : s.comic_number < N) (hfuel : N ≤ s.comic_number + fuel)
    (hwf : s.fs.writeFails = [])
    (hnoexn : ∀ n, o.meta n ≠ .exn)
    (hparse : ∀ n st c, o.meta n = .ok st (.ok (some c)) →
      imgTruthy c.img = true → (dateOfComic c).isSome = true)
    (hstop : ∃ st c d, o.meta N = .ok st (.ok (some c)) ∧
      imgTruthy c.img = true ∧ dateOfComic c = some d ∧
      Date.lt d latest = false) :
    (∀ t t2, loopStep o t = .next t2 ∨ loopStep o t = .raised t2 →
      t2.comic_number = t.comic_number + 1) ∧
    (∀ g z w, runLoop o latest g z = .done w →
      Date.lt w.comic_date latest = false) ∧
    (runLoop o latest fuel s).isDone = true ∧
    (runLoop o latest fuel s).state.comic_number ≤ N := by
  refine ⟨fun t t2 h => loopStep_increments o t t2 h,
    fun g z w h => runLoop_done_not_lt o latest g z w h, ?_, ?_⟩
  · exact (runLoop_reaches_done o latest N hnoexn hparse hstop
      fuel s hN hfuel hwf).1
  · exact (runLoop_reaches_done o latest N hnoexn hparse hstop
      fuel s hN hfuel hwf).2

/-- Claim C2 witness: under a network always serving the latest record
(number 1, dated 2010-01-02), the loop from the initial state exits
normally with one unit of fuel, at comic number at most 1. -/
theorem loop_stops_at_latest_date_witness :
    (runLoop stopOracle ⟨2010, 1, 2⟩ 1
      ⟨initialDate, 0, emptyFS, [], []⟩).isDone = true ∧
    (runLoop stopOracle ⟨2010, 1, 2⟩ 1
      ⟨initialDate, 0, emptyFS, [], []⟩).state.comic_number ≤ 1 := by
  have h := loop_stops_at_latest_date stopOracle ⟨2010, 1, 2⟩ 1 1
    ⟨initialDate, 0, emptyFS, [], []⟩ (by decide) (by decide) rfl
    (fun n => by simp [stopOracle])
    (fun n st c hm himg => by
      simp only [stopOracle] at hm
      injection hm with h1 h2
      injection h2 with h3
      injection h3 with h4
      rw [← h4]
      decide)
    ⟨200, latestRec, ⟨2010, 1, 2⟩, rfl, by decide, by decide, by decide⟩
  exact ⟨h.2.2.1, h.2.2.2⟩

/-- Claim C3 counterexample: when `session.get` itself raises (a transport
failure), `get_comic_data` propagates the exception and logs nothing —
the claim that every parse-or-transport failure is logged and turned into
a no-data result is false. -/
theorem get_comic_data_transport_failure_propagates :
    (get_comic_data exnOracle 1).result = .raised ∧
    (get_comic_data exnOracle 1).logs = [] :=
  ⟨rfl, rfl⟩

/-- Claim C3 (amended): a failure while reading or parsing the metadata
response body is logged with the status code and comic number and yields
a no-data result instead of propagating, and the driver loop treats that
no-data result as skip-and-continue (nothing changes but the counter and
the logs), never as fatal; a failure of the `session.get` call itself is
not covered (it propagates, see the counterexample). -/
theorem get_comic_data_parse_failure_skips (o : Oracle) (n st : Nat)
    (h : o.meta n = .ok st (.error ())) :
    get_comic_data o n = ⟨.ok none, [.errNoData st n], [.metadata n]⟩ ∧
    (∀ s : LoopState, s.comic_number + 1 = n →
      ∃ t, loopStep o s = .next t ∧ t.fs = s.fs ∧
        t.comic_date = s.comic_date ∧ t.comic_number = n ∧
        t.logs = s.logs ++ [.errNoData st n, .warnSkipNonComic none]) := by
  constructor
  · simp [get_comic_data, h]
  · intro s hs
    simp only [loopStep, get_comic_data, hs, h]
    exact ⟨_, rfl, rfl, rfl, rfl, by simp⟩

/-- Claim C3 witness: with every metadata body failing to parse with
status 404, comic number 1 yields no data, is logged, and iteration 1 is
a skip. -/
theorem get_comic_data_parse_failure_skips_witness :
    get_comic_data noDataOracle 1 = ⟨.ok none, [.errNoData 404 1], [.metadata 1]⟩ ∧
    (∃ t, loopStep noDataOracle ⟨initialDate, 0, emptyFS, [], []⟩ = .next t ∧
      t.fs = emptyFS ∧ t.comic_date = initialDate ∧ t.comic_number = 1 ∧
      t.logs = [] ++ [.errNoData 404 1, .warnSkipNonComic none]) := by
  have h := get_comic_data_parse_failure_skips noDataOracle 1 404 rfl
  exact ⟨h.1, h.2 ⟨initialDate, 0, emptyFS, [], []⟩ rfl⟩

/-- Claim C4 counterexample: a failure while writing the image bytes to
the output file is not caught: with the output path in the set of paths
where `open` raises, `download_comic` raises with nothing logged, and the
driver loop iteration ends in an uncaught exception, terminating the
run. -/
theorem download_write_failure_fatal :
    (download_comic wfailOracle wfailFS wfailRec).raised = true ∧
    (download_comic wfailOracle wfailFS wfailRec).logs = [] ∧
    (loopStep wfailOracle ⟨initialDate, 9, wfailFS, [], []⟩).isRaisedStep
      = true ∧
    (runLoop wfailOracle ⟨2007, 3, 4⟩ 3
        ⟨initialDate, 9, wfailFS, [], []⟩).isRaised = true := by
  decide

/-- Claim C4 (amended): a transport failure while fetching the image
bytes (the GET raising, or reading the body raising) is caught, logged
with the full comic record, and treated as a skip of that single comic —
the function returns normally and writes nothing; but a failure while
writing the bytes to the output file is not caught: it propagates with
nothing logged (see the counterexample). -/
theorem download_image_transport_failure_caught (o : Oracle) (fs : FS)
    (c : ComicData) (u : String) (himg : c.img = some u)
    (hext : extension u ∈ allowedExtensions)
    (hnex : fs.fileExists (outputPathOf c u) = false) :
    (o.image u = .exn →
      (download_comic o fs c).raised = false ∧
      (download_comic o fs c).logs = [.errSaveImage c] ∧
      (download_comic o fs c).fs.files = fs.files ∧
      (download_comic o fs c).reqs = [.image u]) ∧
    (∀ st e, o.image u = .ok st (.error e) →
      (download_comic o fs c).raised = false ∧
      (download_comic o fs c).logs = [.errSaveImage c] ∧
      (download_comic o fs c).fs.files = fs.files ∧
      (download_comic o fs c).reqs = [.image u]) ∧
    (∀ st bytes, o.image u = .ok st (.ok bytes) →
      fs.writeFails.contains (outputPathOf c u) = true →
      (download_comic o fs c).raised = true ∧
      (download_comic o fs c).logs = []) := by
  have hnex1 : (output_dir fs c).1.fileExists (outputPathOf c u) = false := by
    rw [fileExists_eq_of_files_eq (output_dir_files fs c)]
    exact hnex
  refine ⟨?_, ?_, ?_⟩
  · intro h
    unfold download_comic
    rw [himg]
    simp [hext, hnex1, h, output_dir_files]
  · intro st e h
    unfold download_comic
    rw [himg]
    simp [hext, hnex1, h, output_dir_files]
  · intro st bytes h hw
    unfold download_comic
    rw [himg]
    have hw1 : outputPathOf c u ∈ (output_dir fs c).1.writeFails := by
      rw [output_dir_writeFails]
      exact List.mem_of_elem_eq_true hw
    simp [hext, hnex1, h, hw1]

/-- Claim C4 witness: on an empty filesystem, a raising image GET for the
`png` record is caught and logged with the record, with no write. -/
theorem download_image_transport_failure_caught_witness :
    (download_comic exnOracle emptyFS wfailRec).raised = false ∧
    (download_comic exnOracle emptyFS wfailRec).logs
      = [.errSaveImage wfailRec] ∧
    (download_comic exnOracle emptyFS wfailRec).fs.files = emptyFS.files ∧
    (download_comic exnOracle emptyFS wfailRec).reqs
      = [.image "http://x/a.png"] :=
  (download_image_transport_failure_caught exnOracle emptyFS wfailRec
    "http://x/a.png" rfl (by decide) (by decide)).1 rfl

/-- Claim C9 counterexample: when the `session.get` call of the
latest-comic lookup raises, the exception propagates with nothing logged,
so "logs the error and re-raises" does not hold of every failure of the
lookup. -/
theorem latest_lookup_get_failure_unlogged :
    (get_most_recent_comic_date_and_number exnOracle).result = .raised ∧
    (get_most_recent_comic_date_and_number exnOracle).logs = [] :=
  ⟨rfl, rfl⟩

/-- Claim C9 (amended): a failure of the latest-comic lookup is fatal.  A
failure while reading or parsing the body is logged with its status code
and re-raised; a failure of the `session.get` call itself propagates
without being logged.  In either case `main` aborts with the exception
before any per-comic metadata or image request is issued: the only
request of the whole run is the latest-comic lookup itself. -/
theorem latest_lookup_failure_fatal (o : Oracle) (fuel : Nat) (fs0 : FS) :
    (o.latest = .exn →
      get_most_recent_comic_date_and_number o = ⟨.raised, [], [.latest]⟩ ∧
      mainRun o fuel fs0 = .raised ⟨initialDate, 0, fs0, [], [.latest]⟩) ∧
    (∀ st e, o.latest = .ok st (.error e) →
      get_most_recent_comic_date_and_number o
        = ⟨.raised, [.errNoDataLatest st], [.latest]⟩ ∧
      mainRun o fuel fs0
        = .raised ⟨initialDate, 0, fs0, [.errNoDataLatest st], [.latest]⟩) := by
  constructor
  · intro h
    constructor
    · simp [get_most_recent_comic_date_and_number, h]
    · simp [mainRun, get_most_recent_comic_date_and_number, h]
  · intro st e h
    constructor
    · simp [get_most_recent_comic_date_and_number, h]
    · simp [mainRun, get_most_recent_comic_date_and_number, h]

/-- Claim C9 witness: a raising latest-comic GET and a latest-comic body
parse failure each abort the run with only the lookup request issued. -/
theorem latest_lookup_failure_fatal_witness :
    mainRun exnOracle 3 emptyFS
      = .raised ⟨initialDate, 0, emptyFS, [], [.latest]⟩ ∧
    mainRun badLatestOracle 3 emptyFS
      = .raised ⟨initialDate, 0, emptyFS, [.errNoDataLatest 500], [.latest]⟩ :=
  ⟨((latest_lookup_failure_fatal exnOracle 3 emptyFS).1 rfl).2,
   ((latest_lookup_failure_fatal badLatestOracle 3 emptyFS).2 500 () rfl).2⟩

/-- Claim C7: title sanitization removes every occurrence of each of the
nine reserved characters and changes nothing else: the count of every
reserved character drops to zero, the count of every other character is
preserved, the surviving characters keep their order (the result is a
sublist of the input), and the title "A/B: Test?" sanitizes to
"AB Test". -/
theorem sanitize_strips_reserved_chars (s : String) (c : Char) :
    (isBadChar c = true → (sanitize s).data.count c = 0) ∧
    (isBadChar c = false → (sanitize s).data.count c = s.data.count c) ∧
    List.Sublist (sanitize s).data s.data ∧
    sanitize "A/B: Test?" = "AB Test" := by
  refine ⟨?_, ?_, List.filter_sublist _, by decide⟩
  · intro h
    rw [List.count_eq_zero]
    simp [sanitize, List.mem_filter, h]
  · intro h
    exact List.count_filter (by simp [h])

/-- Claim C7 witness: on the title "A/B: Test?", the slash is removed,
the letter A is preserved, and the result is "AB Test". -/
theorem sanitize_strips_reserved_chars_witness :
    (sanitize "A/B: Test?").data.count '/' = 0 ∧
    (sanitize "A/B: Test?").data.count 'A' = "A/B: Test?".data.count 'A' ∧
    sanitize "A/B: Test?" = "AB Test" :=
  ⟨(sanitize_strips_reserved_chars "A/B: Test?" '/').1 rfl,
   (sanitize_strips_reserved_chars "A/B: Test?" 'A').2.1 rfl,
   (sanitize_strips_reserved_chars "A/B: Test?" 'A').2.2.2⟩

/-- Claim C8: the output path of a record is
`comics/(year)/((year)-(month)-(day)) (sanitized title).(extension)`
with month and day zero-padded to two digits and the extension the
segment of the image URL after its last dot, and the year directory is
created if missing: on the spec's example record the path is
`comics/2006/(2006-01-01) Test.png`. -/
theorem output_path_correct (o : Oracle) (fs : FS) (c : ComicData)
    (u s : String) (pre post : List Char) :
    outputPathOf testRec "http://x/test.png"
      = "comics/2006/(2006-01-01) Test.png" ∧
    zfill "1" 2 = "01" ∧
    zfill "12" 2 = "12" ∧
    (zfill s 2).length = max 2 s.length ∧
    ('.' ∉ post → extension (String.mk (pre ++ '.' :: post)) = String.mk post) ∧
    (c.img = some u → dirOf c ∈ (download_comic o fs c).fs.dirs) := by
  refine ⟨by decide, by decide, by decide, zfill_length s 2, ?_, ?_⟩
  · intro h
    exact extension_after_last_dot pre post h
  · intro _
    rw [download_comic_dirs]
    exact output_dir_mem_dirs fs c

/-- Claim C8 witness: the example record's path, concrete padding, the
extension of a concrete URL, and directory creation on an empty
filesystem. -/
theorem output_path_correct_witness :
    outputPathOf testRec "http://x/test.png"
      = "comics/2006/(2006-01-01) Test.png" ∧
    (zfill "7" 2).length = max 2 ("7" : String).length ∧
    extension (String.mk ("http://x/test".data ++ '.' :: "png".data))
      = String.mk "png".data ∧
    dirOf testRec ∈ (download_comic exnOracle emptyFS testRec).fs.dirs :=
  ⟨(output_path_correct exnOracle emptyFS testRec "u" "7" [] []).1,
   (output_path_correct exnOracle emptyFS testRec "u" "7" [] []).2.2.2.1,
   (output_path_correct exnOracle emptyFS testRec "u" "7"
      "http://x/test".data "png".data).2.2.2.2.1 (by decide),
   (output_path_correct exnOracle emptyFS testRec "http://x/test.png" "7"
      [] []).2.2.2.2.2 rfl⟩

end Xkcd
